import Mathlib

/-!
Verification development for the track importer service
(`tune_manager/importer/filesystem.py`).

The Python module is shallowly embedded: the mutable `TrackProcessor`
object becomes an explicit `State` record threaded through pure
functions, external collaborators (the md5 digest, the key estimator,
the tag serializer, artwork normalization, the path-from-metadata
function) become function parameters, filesystem side effects become an
explicit `Effect` list, and Python exceptions become `Except`/`Option`
error values.  Python `list.remove` removes the first matching element
and raises `ValueError` when none matches; Python `dict` objects are
modelled as association lists with unique keys.
-/

/-! ## Generic list helpers used by the path model -/

theorem takeWhile_append_all {α : Type} (q : α → Bool) (l₁ l₂ : List α)
    (h : ∀ a ∈ l₁, q a = true) :
    (l₁ ++ l₂).takeWhile q = l₁ ++ l₂.takeWhile q := by
  induction l₁ with
  | nil => simp
  | cons a t ih =>
    have ha : q a = true := h a (by simp)
    simp only [List.cons_append, List.takeWhile_cons, ha]
    simp [ih fun x hx => h x (by simp [hx])]

theorem dropWhile_append_all {α : Type} (q : α → Bool) (l₁ l₂ : List α)
    (h : ∀ a ∈ l₁, q a = true) :
    (l₁ ++ l₂).dropWhile q = l₂.dropWhile q := by
  induction l₁ with
  | nil => simp
  | cons a t ih =>
    have ha : q a = true := h a (by simp)
    simp only [List.cons_append, List.dropWhile_cons, ha, if_true]
    exact ih fun x hx => h x (by simp [hx])

theorem takeWhile_dropWhile_eq_nil {α : Type} (q : α → Bool) (l : List α) :
    ((l.dropWhile q).takeWhile q) = [] := by
  induction l with
  | nil => simp
  | cons a t ih =>
    by_cases h : q a = true
    · simpa [List.dropWhile_cons, h] using ih
    · simp only [List.dropWhile_cons, h]
      simp [List.takeWhile_cons, h]

theorem dropWhile_eq_self_of_takeWhile_eq_nil {α : Type} (q : α → Bool) (l : List α)
    (h : l.takeWhile q = []) : l.dropWhile q = l := by
  have := List.takeWhile_append_dropWhile (p := q) (l := l)
  rw [h] at this
  simpa using this

theorem mem_takeWhile_sat {α : Type} (q : α → Bool) (l : List α) (a : α)
    (h : a ∈ l.takeWhile q) : q a = true := by
  induction l with
  | nil => simp at h
  | cons b t ih =>
    by_cases hb : q b = true
    · simp only [List.takeWhile_cons, hb, if_true, List.mem_cons] at h
      rcases h with h | h
      · rwa [h]
      · exact ih h
    · simp [List.takeWhile_cons, hb] at h

/-! ## Path model (`os.path` on posix) -/

/-- Model of `os.path.splitext` from the Python standard library (posix
flavour), on explicit character lists.  The reversed basename is
`p.reverse.takeWhile (· != sep)`; an extension exists when the basename
contains a dot that is preceded, within the basename, by at least one
character that is not a dot (leading dots of the basename never start an
extension, so hidden files such as `.bashrc` have no extension). -/
def splitextChars (p : List Char) : List Char × List Char :=
  match (p.reverse.takeWhile (fun c => c != '/')).dropWhile (fun c => c != '.') with
  | [] => (p, [])
  | _ :: before =>
    if before.any (fun c => c != '.') then
      ((p.reverse.dropWhile (fun c => c != '/')).reverse ++ before.reverse,
       '.' :: ((p.reverse.takeWhile (fun c => c != '/')).takeWhile
         (fun c => c != '.')).reverse)
    else (p, [])

/-- `os.path.splitext` on strings: `splitext p = (root, ext)` with
`root ++ ext = p`. -/
def splitext (p : String) : String × String :=
  (⟨(splitextChars p.data).1⟩, ⟨(splitextChars p.data).2⟩)

/-- Model of `os.path.join` (posix, two arguments). -/
def path_join (a b : String) : String :=
  if b.startsWith "/" then b
  else if a = "" ∨ a.endsWith "/" then a ++ b
  else a ++ "/" ++ b

/-- Model of `os.path.dirname` (posix): everything up to the last
separator, with trailing separators stripped unless the result consists
only of separators. -/
def dirname (p : String) : String :=
  let head := (p.data.reverse.dropWhile (fun c => c != '/')).reverse
  if head.any (fun c => c != '/') then
    ⟨(head.reverse.dropWhile (fun c => c = '/')).reverse⟩
  else ⟨head⟩

/-- `file_id` from the source: the md5 hex digest of the path with its
extension stripped.  The digest itself is the external `hashlib.md5`
routine and is passed in as a function parameter. -/
def file_id (md5 : String → String) (path : String) : String :=
  md5 (splitext path).1

/-- Python `str.zfill`: left-pad with zero characters up to the given
width (the stored musical keys carry no sign character, so the
sign-handling branch of `zfill` is never reached). -/
def zfill (width : Nat) (s : String) : String :=
  if s.length < width then ⟨List.replicate (width - s.length) '0' ++ s.data⟩ else s

/-- Python `str.strip("0")`: remove zero characters from both ends. -/
def strip0 (s : String) : String :=
  ⟨((s.data.dropWhile (fun c => c = '0')).reverse.dropWhile (fun c => c = '0')).reverse⟩

/-- Removal of leading zero characters only (`str.lstrip("0")`); used to
state the specification reading of the key-validity check, which speaks
of ignoring leading-zero padding. -/
def lstrip0 (s : String) : String :=
  ⟨s.data.dropWhile (fun c => c = '0')⟩

/-! ## Enumerations and data model -/

/-- The `EventType` enumeration of the source. -/
inductive EventType where
  | TRACK_DETAILS
  | TRACK_REMOVED
  | TRACK_PROCESSING
  | TRACK_UPDATE
  | TRACK_SAVED
deriving DecidableEq, Repr

/-- `EventType.name`, as Python `enum` exposes it. -/
def EventType.name : EventType → String
  | .TRACK_DETAILS => "TRACK_DETAILS"
  | .TRACK_REMOVED => "TRACK_REMOVED"
  | .TRACK_PROCESSING => "TRACK_PROCESSING"
  | .TRACK_UPDATE => "TRACK_UPDATE"
  | .TRACK_SAVED => "TRACK_SAVED"

/-- The `TrackProcesses` enumeration of the source. -/
inductive TrackProcesses where
  | CONVERTING
  | KEY_COMPUTING
  | BEATPORT_IMPORT
deriving DecidableEq, Repr

/-- `TrackProcesses.name`. -/
def TrackProcesses.name : TrackProcesses → String
  | .CONVERTING => "CONVERTING"
  | .KEY_COMPUTING => "KEY_COMPUTING"
  | .BEATPORT_IMPORT => "BEATPORT_IMPORT"

/-- An embedded artwork entry; the tag collaborator exposes a stable
content key (`a.key` in the source). -/
structure Artwork where
  key : String
deriving DecidableEq, Repr

/-- Model of a `mediafile.MediaFile` object as the core manipulates it:
a set of settable tag attributes (an association list from attribute
name to string value, the empty string standing for a missing or falsy
value), the file path, and the embedded artwork list.  The tag I/O
collaborator itself is out of scope; only the attribute surface the
importer touches is modelled. -/
structure MediaFile where
  attrs : List (String × String)
  file_path : String
  artwork : List Artwork
deriving DecidableEq, Repr

/-- `media.key`, the stored musical key tag (empty string when absent,
matching Python falsiness of both `None` and `""`). -/
def MediaFile.key (m : MediaFile) : String :=
  (m.attrs.lookup "key").getD ""

/-- Python `hasattr(media, k)` restricted to the tag attributes: the
attribute exists on the object (its value may still be empty). -/
def MediaFile.hasattr (m : MediaFile) (k : String) : Bool :=
  (m.attrs.lookup k).isSome

/-- Update an association list at a key: replace the first binding of
the key, or append a new binding when the key is absent (Python
`setattr` / `dict` assignment). -/
def assocSet {β : Type} (l : List (String × β)) (k : String) (v : β) :
    List (String × β) :=
  match l with
  | [] => [(k, v)]
  | (k', v') :: rest => if k' = k then (k, v) :: rest else (k', v') :: assocSet rest k v

/-- Python `setattr(media, k, v)` for a tag attribute. -/
def MediaFile.setAttr (m : MediaFile) (k v : String) : MediaFile :=
  { m with attrs := assocSet m.attrs k v }

/-- Modelled from the spec: the tag I/O collaborator (section 6 of the
spec) loads and saves tag fields and embedded artwork; its `clear`
operation, invoked by the save flow and not present under `src/`,
removes every tag from the file object, which here resets every tag
attribute to the empty value and empties the artwork list. -/
def MediaFile.clear (m : MediaFile) : MediaFile :=
  { m with attrs := m.attrs.map (fun kv => (kv.1, "")), artwork := [] }

/-- A queued client notification: the event kind name together with the
`item` payload (`{"id": identifier, ...kwargs}`), modelled as an
association list. -/
structure Event where
  type : String
  item : List (String × String)
deriving DecidableEq, Repr

/-- The mutable state of a `TrackProcessor` instance: the event queue
(FIFO, list head first), the connected websockets, the tracked media
files keyed by identifier, the artwork cache keyed by content hash, the
in-flight processing list, and the expected-removal list. -/
structure State where
  events : List Event
  connections : List String
  mediafiles : List (String × MediaFile)
  artwork : List (String × Artwork)
  processing : List (String × TrackProcesses)
  expect_removed : List String
deriving DecidableEq, Repr

/-- A filesystem or tag-persistence side effect performed by a flow. -/
inductive Effect where
  | mediaSave (m : MediaFile)
  | makedirs (d : String)
  | moveFile (src dst : String)
  | reloadFile (p : String)
  | symlinkFile (target dst : String)
  | renameFile (src dst : String)
deriving DecidableEq, Repr

/-! ## Event emission and processing bookkeeping -/

/-- `send_event`: build the item dict `{"id": identifier, **kwargs}` and
put the event on the queue (`put_nowait`). -/
def send_event (st : State) (ty : EventType) (identifier : String)
    (kwargs : List (String × String)) : State :=
  { st with events := st.events ++ [⟨ty.name, ("id", identifier) :: kwargs⟩] }

/-- `send_details`. -/
def send_details (st : State) (identifier : String)
    (track : List (String × String)) : State :=
  send_event st .TRACK_DETAILS identifier track

/-- `send_processing`. -/
def send_processing (st : State) (identifier : String)
    (process : TrackProcesses) : State :=
  send_event st .TRACK_PROCESSING identifier [("process", process.name)]

/-- `add_processing`: append the pair to the processing list, then emit
the TRACK_PROCESSING event. -/
def add_processing (st : State) (identifier : String)
    (process : TrackProcesses) : State :=
  send_processing { st with processing := st.processing ++ [(identifier, process)] }
    identifier process

/-- `done_processing`: Python `list.remove` deletes the first matching
pair and raises `ValueError` when no pair matches; then a TRACK_UPDATE
event carrying `completed_process` and the stage result fields is
emitted. -/
def done_processing (st : State) (identifier : String)
    (completed_process : TrackProcesses) (kwargs : List (String × String)) :
    Except String State :=
  if (identifier, completed_process) ∈ st.processing then
    .ok (send_event
      { st with processing := st.processing.erase (identifier, completed_process) }
      .TRACK_UPDATE identifier
      (("completed_process", completed_process.name) :: kwargs))
  else .error "ValueError"

/-- `report_state`: walk the tracked media files emitting TRACK_DETAILS
for each, then walk the processing list emitting TRACK_PROCESSING for
each.  Both walks go through `send_event`, so the replayed messages are
enqueued on the shared event queue (the `ws` argument of the source is
never consulted).  The external `mediafile.serialize` routine is a
parameter. -/
def report_state (serialize : MediaFile → List (String × String))
    (st : State) (ws : String) : State :=
  let st₁ := st.mediafiles.foldl (fun s kv => send_details s kv.1 (serialize kv.2)) st
  st.processing.foldl (fun s ip => send_processing s ip.1 ip.2) st₁

/-! ## Worker pool -/

/-- `future_raise`: the completion callback installed on every submitted
future; re-raises the exception of the future when there is one.  A
completed future is modelled by the optional exception it captured. -/
def future_raise (future : Option String) : Except String Unit :=
  match future with
  | some e => .error e
  | none => .ok ()

/-- The outcome an executor records for a submitted call: the raised
exception, or none when the call returned normally. -/
def future_of_run {α β : Type} (fn : α → Except String β) (a : α) : Option String :=
  match fn a with
  | .error e => some e
  | .ok _ => none

/-- `execute_paralell`: submit the function to the thread pool and
attach `future_raise` as the done callback.  The observable outcome of
the submission is the callback result on the completed future. -/
def execute_paralell {α β : Type} (fn : α → Except String β) (a : α) :
    Except String Unit :=
  future_raise (future_of_run fn a)

/-! ## Event batching -/

/-- A batch group produced by `group_events`: one event kind and the
`item` payloads of every drained event of that kind. -/
structure GroupedEvent where
  type : String
  items : List (List (String × String))
deriving DecidableEq, Repr

/-- Lexicographic order on character lists by code point, the order
Python uses to compare strings. -/
def charListLe : List Char → List Char → Bool
  | [], _ => true
  | _ :: _, [] => false
  | a :: as, b :: bs => if a = b then charListLe as bs else decide (a < b)

/-- Lexicographic string comparison by code point. -/
def str_le (a b : String) : Bool := charListLe a.data b.data

/-- Stable insertion of an event into a list sorted by type (the new
event, which came earlier in the unsorted batch, lands before the events
of equal type already placed, which matches a stable sort). -/
def sort_insert (e : Event) : List Event → List Event
  | [] => [e]
  | b :: t => if str_le e.type b.type then e :: b :: t else b :: sort_insert e t

/-- Stable sort of the drained batch by event type
(`events.sort(key=key_on_type)`; Python `list.sort` is stable). -/
def sort_events : List Event → List Event
  | [] => []
  | e :: t => sort_insert e (sort_events t)

/-- Consecutive-run grouping (`itertools.groupby` after the sort). -/
def group_events_aux : List Event → List GroupedEvent
  | [] => []
  | e :: rest =>
    match group_events_aux rest with
    | [] => [⟨e.type, [e.item]⟩]
    | g :: gs =>
      if e.type = g.type then ⟨g.type, e.item :: g.items⟩ :: gs
      else ⟨e.type, [e.item]⟩ :: g :: gs

/-- `group_events`: sort the drained batch by event type and group the
now-consecutive runs of equal type, keeping the item payloads. -/
def group_events (events : List Event) : List GroupedEvent :=
  group_events_aux (sort_events events)

/-- Flatten batch groups back into events; used to state that grouping
neither loses, duplicates, nor mislabels drained events. -/
def ungroup (gs : List GroupedEvent) : List Event :=
  gs.flatMap (fun g => g.items.map (fun it => ⟨g.type, it⟩))

/-- One wake-up of the `dispatcher` coroutine, after the batch-period
sleep: with an empty queue, skip; otherwise drain every queued event,
discard the batch when no client is connected, and otherwise send each
serialized batch group to every connected websocket.  The returned list
is the sequence of `ws.send` calls issued (receiver and payload). -/
def dispatcher_iter (st : State) : State × List (String × GroupedEvent) :=
  if st.events = [] then (st, [])
  else
    let st' := { st with events := [] }
    if st.connections = [] then (st', [])
    else (st', (group_events st.events).flatMap
      (fun g => st.connections.map (fun ws => (ws, g))))

/-! ## Key computation pipeline -/

/-- Modelled from the external `keyfinder` library: the values of its
`notations.camelot` table, the 24 standard Camelot wheel codes.  The
source tests stored keys for membership in exactly this value set. -/
def camelotValues : List String :=
  ["1A", "1B", "2A", "2B", "3A", "3B", "4A", "4B", "5A", "5B", "6A", "6B",
   "7A", "7B", "8A", "8B", "9A", "9B", "10A", "10B", "11A", "11B", "12A", "12B"]

/-- The key-recomputation trigger of `process_add`:
`not media.key or not media.key.strip("0") in valid_keys`.  Python
`strip("0")` removes zero characters from both ends of the stored
key. -/
def key_invalid (media : MediaFile) : Bool :=
  media.key == "" || !(camelotValues.contains (strip0 media.key))

/-- The trigger condition as the claim words it: recomputation happens
when the stored key is missing or, ignoring leading-zero padding only,
is not a recognized Camelot code.  Stated for comparison with
`key_invalid`, which is what the code computes. -/
def claim_key_invalid (media : MediaFile) : Bool :=
  media.key == "" || !(camelotValues.contains (lstrip0 media.key))

/-- `compute_key`: enter KEY_COMPUTING, store the zero-padded estimated
key on the media object, leave KEY_COMPUTING with a completion event
carrying the new key, and persist the tags (`media.save()`).  The
external estimator `keyfinder.key(path).camelot()` is a parameter. -/
def compute_key (estimate : String → String) (st : State)
    (identifier : String) (media : MediaFile) :
    Except String (State × MediaFile × List Effect) :=
  let st₁ := add_processing st identifier .KEY_COMPUTING
  let newKey := zfill 3 (estimate media.file_path)
  let media₁ := media.setAttr "key" newKey
  match done_processing st₁ identifier .KEY_COMPUTING [("key", newKey)] with
  | .error e => .error e
  | .ok st₂ => .ok (st₂, media₁, [.mediaSave media₁])

/-- The key-validation section of `process_add` (the recomputation
check, the clearing of the stored key, and the submitted `compute_key`
stage, the submission modelled as the synchronous run of the stage
body). -/
def process_key_check (estimate : String → String) (st : State)
    (identifier : String) (media : MediaFile) :
    Except String (State × MediaFile × List Effect) :=
  if key_invalid media then
    compute_key estimate st identifier (media.setAttr "key" "")
  else .ok (st, media, [])

/-! ## Save flow -/

/-- `cache_art`: merge every artwork entry into the cache keyed by its
content key (`dict.update`). -/
def cache_art (st : State) (artwork : List Artwork) : State :=
  { st with artwork := artwork.foldl (fun acc a => assocSet acc a.key a) st.artwork }

/-- Write a media file back into the registry under its identifier (in
the source the registry holds the same mutable object, so every in-place
mutation is visible through the registry). -/
def set_mediafile (st : State) (identifier : String) (m : MediaFile) : State :=
  { st with mediafiles := assocSet st.mediafiles identifier m }

/-- The `options` dict accepted by `save_track`. -/
structure SaveOptions where
  migrate_path : Option String
  link_paths : List String
deriving DecidableEq, Repr

/-- The outcome of a `save_track` call: the state as left behind, the
filesystem and tag effects performed before returning or raising, and
the exception raised, if any. -/
structure SaveResult where
  state : State
  effects : List Effect
  error : Option String
deriving DecidableEq, Repr

/-- The field-edit filter of `save_track`:
`[(k, v) for k, v in track.items() if hasattr(media, k) and v]`,
restricted to the string-valued fields (the `artwork` entry holds an
object by that point and is modelled on its own channel). -/
def eligible_edits (media : MediaFile) (track : List (String × String)) :
    List (String × String) :=
  track.filter (fun kv => media.hasattr kv.1 && kv.2 != "")

/-- The edit-application core of `save_track` (lines filtering the
edits, clearing the media object, and setting each remaining
attribute). -/
def save_track_edits (media : MediaFile) (track : List (String × String)) :
    MediaFile :=
  (eligible_edits media track).foldl (fun m kv => m.setAttr kv.1 kv.2) media.clear

/-- The tail of `save_track` after the tags are persisted: the optional
migrate move, the symbolic-link loop, and the TRACK_SAVED event.  The
link loop evaluates `os.path.join` and `os.makedirs`, then the
`os.symlink(media.file_path, new_path)` call reads the name `new_path`,
which is bound nowhere in `save_track` (the computed location is bound
to `path`), so the first loop iteration raises `NameError` and the save
aborts. -/
def save_track_finish (st : State) (identifier : String) (media : MediaFile)
    (standard_path : String) (effects : List Effect) (options : SaveOptions) :
    SaveResult :=
  match options.link_paths with
  | [] => ⟨send_event st .TRACK_SAVED identifier [], effects, none⟩
  | root :: _ =>
    ⟨st, effects ++ [.makedirs (dirname (path_join root standard_path))],
     some "NameError: name new_path is not defined"⟩

/-- `save_track`: look up the record (`track["id"]`, asserted tracked),
normalize the referenced cached artwork, apply the eligible field edits
over a cleared media object, refresh the artwork cache, persist the
tags, optionally migrate the file to a new root (pre-registering the
identifier in the expected-removal list before the move), then run the
link loop and emit TRACK_SAVED.  `image.normalize_artwork` and
`file.determine_path` are external collaborators passed as
parameters. -/
def save_track (normalize_artwork : Artwork → Artwork)
    (determine_path : MediaFile → String) (st : State)
    (track : List (String × String)) (options : SaveOptions) : SaveResult :=
  match track.lookup "id" with
  | none => ⟨st, [], some "KeyError"⟩
  | some identifier =>
    match st.mediafiles.lookup identifier with
    | none => ⟨st, [], some "AssertionError"⟩
    | some media =>
      match track.lookup "artwork" with
      | none => ⟨st, [], some "KeyError"⟩
      | some artKey =>
        let media₁ := save_track_edits media (track.filter (fun kv => kv.1 != "artwork"))
        let media₂ :=
          match st.artwork.lookup artKey with
          | some a => { media₁ with artwork := [normalize_artwork a] }
          | none => media₁
        let st₁ := cache_art (set_mediafile st identifier media₂) media₂.artwork
        let standard_path := determine_path media₂
        match options.migrate_path with
        | some migrate_path =>
          let path := path_join migrate_path standard_path
          let media₃ := { media₂ with file_path := path }
          let st₂ := set_mediafile
            { st₁ with expect_removed := st₁.expect_removed ++ [identifier] }
            identifier media₃
          save_track_finish st₂ identifier media₃ standard_path
            [.mediaSave media₂, .makedirs (dirname path),
             .moveFile media₂.file_path path, .reloadFile path] options
        | none =>
          save_track_finish st₁ identifier media₂ standard_path
            [.mediaSave media₂] options

/-! ## Remove flow -/

/-- `remove`: compute the identifier of the deleted path; unknown
identifiers are ignored; otherwise evict the artwork cache entries keyed
by the record, delete the record, and either report TRACK_REMOVED or
silently consume the expected-removal marker. -/
def remove (md5 : String → String) (st : State) (path : String) : State :=
  let identifier := file_id md5 path
  match st.mediafiles.lookup identifier with
  | none => st
  | some media =>
    let artKeys := media.artwork.map (fun a => a.key)
    let st₁ := { st with
      artwork := st.artwork.filter (fun kv => !(artKeys.contains kv.1)),
      mediafiles := st.mediafiles.filter (fun kv => kv.1 != identifier) }
    if identifier ∉ st₁.expect_removed then
      send_event st₁ .TRACK_REMOVED identifier []
    else
      { st₁ with expect_removed := st₁.expect_removed.erase identifier }

/-! ## Association-list lemmas -/

theorem lookup_cons_eq {β : Type} (k k' : String) (v : β) (t : List (String × β)) :
    ((k', v) :: t).lookup k = if k = k' then some v else t.lookup k := by
  by_cases h : k = k'
  · simp [List.lookup, h]
  · have hb : (k == k') = false := by simp [h]
    simp [List.lookup, hb, h]

theorem lookup_assocSet_self {β : Type} (l : List (String × β)) (k : String) (v : β) :
    (assocSet l k v).lookup k = some v := by
  induction l with
  | nil => simp [assocSet, lookup_cons_eq]
  | cons kv t ih =>
    rcases kv with ⟨k₀, v₀⟩
    by_cases h : k₀ = k
    · simp [assocSet, h, lookup_cons_eq]
    · simp [assocSet, h, lookup_cons_eq, Ne.symm h, ih]

theorem lookup_assocSet_ne {β : Type} (l : List (String × β)) (k k' : String) (v : β)
    (h : k' ≠ k) : (assocSet l k v).lookup k' = l.lookup k' := by
  induction l with
  | nil => simp [assocSet, lookup_cons_eq, h]
  | cons kv t ih =>
    rcases kv with ⟨k₀, v₀⟩
    by_cases hk : k₀ = k
    · subst hk
      simp [assocSet, lookup_cons_eq, h]
    · simp only [assocSet, hk, if_false]
      rw [lookup_cons_eq, lookup_cons_eq]
      by_cases hk' : k' = k₀ <;> simp [hk', ih]

theorem lookup_append_cases {β : Type} (l₁ l₂ : List (String × β)) (k : String) :
    (l₁ ++ l₂).lookup k =
      match l₁.lookup k with
      | some v => some v
      | none => l₂.lookup k := by
  induction l₁ with
  | nil => simp
  | cons kv t ih =>
    rcases kv with ⟨k₀, v₀⟩
    rw [List.cons_append, lookup_cons_eq, lookup_cons_eq]
    by_cases h : k = k₀ <;> simp [h, ih]

theorem lookup_map_blank (l : List (String × String)) (k : String) :
    (l.map (fun kv => (kv.1, ""))).lookup k = (l.lookup k).map (fun _ => "") := by
  induction l with
  | nil => simp
  | cons kv t ih =>
    rcases kv with ⟨k₀, v₀⟩
    rw [List.map_cons]
    rw [lookup_cons_eq, lookup_cons_eq]
    by_cases h : k = k₀ <;> simp [h, ih]

theorem lookup_filter_ne {β : Type} (l : List (String × β)) (k : String) :
    (l.filter (fun kv => kv.1 != k)).lookup k = none := by
  induction l with
  | nil => simp
  | cons kv t ih =>
    rcases kv with ⟨k₀, v₀⟩
    by_cases h : k₀ = k
    · simp [List.filter_cons, h, ih]
    · rw [List.filter_cons]
      simp only [bne_iff_ne, ne_eq, h, not_false_eq_true, decide_True, if_true]
      rw [lookup_cons_eq]
      simp [Ne.symm h, ih]

theorem lookup_foldl_setAttr (m : MediaFile) (edits : List (String × String)) (k : String) :
    ((edits.foldl (fun m kv => m.setAttr kv.1 kv.2) m).attrs.lookup k) =
      match edits.reverse.lookup k with
      | some v => some v
      | none => m.attrs.lookup k := by
  induction edits generalizing m with
  | nil => simp
  | cons kv t ih =>
    rw [List.foldl_cons, ih, List.reverse_cons, lookup_append_cases]
    cases ht : t.reverse.lookup k
    · rcases kv with ⟨k₀, v₀⟩
      rw [lookup_cons_eq]
      by_cases hk : k = k₀
      · subst hk
        simp [MediaFile.setAttr, lookup_assocSet_self]
      · simp [MediaFile.setAttr, hk, lookup_assocSet_ne m.attrs k₀ k v₀ hk]
    · simp

/-! ## Claim C1 -/

/-- C1: for every `(identifier, stage)` pair previously added via
`add_processing` (so present in the processing list), `done_processing`
for that identifier and stage succeeds, removes exactly one matching
entry from the processing list (the count of the pair drops by exactly
one and every other pair keeps its count), and emits exactly one
TRACK_UPDATE event whose item carries `completed_process` equal to the
stage name together with the stage result fields. -/
theorem done_processing_removes_one_and_updates
    (st : State) (i : String) (p : TrackProcesses) (kwargs : List (String × String))
    (h : (i, p) ∈ st.processing) :
    done_processing st i p kwargs =
      .ok { st with
        processing := st.processing.erase (i, p),
        events := st.events ++
          [⟨"TRACK_UPDATE", ("id", i) :: ("completed_process", p.name) :: kwargs⟩] }
    ∧ (st.processing.erase (i, p)).count (i, p) + 1 = st.processing.count (i, p)
    ∧ ∀ q, q ≠ (i, p) → (st.processing.erase (i, p)).count q = st.processing.count q := by
  refine ⟨?_, ?_, ?_⟩
  · simp [done_processing, h, send_event, EventType.name]
  · have hpos : 0 < st.processing.count (i, p) := List.count_pos_iff.2 h
    rw [List.count_erase_self]
    omega
  · intro q hq
    exact List.count_erase_of_ne hq _

/-- Witness for C1 at a concrete state with one processing entry. -/
theorem done_processing_removes_one_and_updates_witness :
    ("t", TrackProcesses.KEY_COMPUTING) ∈
        (State.mk [] [] [] [] [("t", TrackProcesses.KEY_COMPUTING)] []).processing
    ∧ done_processing (State.mk [] [] [] [] [("t", TrackProcesses.KEY_COMPUTING)] [])
        "t" TrackProcesses.KEY_COMPUTING [("key", "01A")] =
      .ok (State.mk
        [⟨"TRACK_UPDATE", [("id", "t"), ("completed_process", "KEY_COMPUTING"),
          ("key", "01A")]⟩] [] [] [] [] []) :=
  ⟨by decide, by
    rw [(done_processing_removes_one_and_updates
      (State.mk [] [] [] [] [("t", TrackProcesses.KEY_COMPUTING)] [])
      "t" TrackProcesses.KEY_COMPUTING [("key", "01A")] (by decide)).1]
    rfl⟩

/-! ## Claim C9 -/

/-- C9: the completion callback `future_raise` attached by
`execute_paralell` re-raises the exception of any submitted function
that failed, so the failure surfaces instead of being swallowed, and
raises nothing when the function completed normally. -/
theorem execute_paralell_surfaces_failures {α β : Type}
    (fn : α → Except String β) (a : α) :
    (∀ e, fn a = .error e → execute_paralell fn a = .error e)
    ∧ (∀ b, fn a = .ok b → execute_paralell fn a = .ok ()) := by
  constructor <;> intro x hx <;>
    simp [execute_paralell, future_of_run, future_raise, hx]

/-- Witness for C9: a failing submission re-raises, a successful one
raises nothing. -/
theorem execute_paralell_surfaces_failures_witness :
    execute_paralell (fun _ : Nat => (.error "boom" : Except String Nat)) 0 = .error "boom"
    ∧ execute_paralell (fun n : Nat => (.ok n : Except String Nat)) 0 = .ok () :=
  ⟨(execute_paralell_surfaces_failures (fun _ : Nat => (.error "boom" : Except String Nat)) 0).1
      "boom" rfl,
   (execute_paralell_surfaces_failures (fun n : Nat => (.ok n : Except String Nat)) 0).2
      0 rfl⟩

/-! ## Claim C10 -/

/-- C10: `remove` on a path whose computed identifier is not in the
track registry is a complete no-op: the state (registry, artwork cache,
event queue, expected-removal list) is returned unchanged, even when the
expected-removal list contains that identifier. -/
theorem remove_unknown_identifier_noop (md5 : String → String) (st : State)
    (path : String) (h : st.mediafiles.lookup (file_id md5 path) = none) :
    remove md5 st path = st := by
  simp only [remove, h]

/-- Witness for C10 at a state whose expected-removal list holds the very
identifier being removed while the registry does not know it. -/
theorem remove_unknown_identifier_noop_witness :
    (State.mk [] [] [] [] [] ["/x/a"]).mediafiles.lookup
        (file_id (fun s => s) "/x/a.mp3") = none
    ∧ remove (fun s => s) (State.mk [] [] [] [] [] ["/x/a"]) "/x/a.mp3" =
        State.mk [] [] [] [] [] ["/x/a"] :=
  ⟨by decide,
   remove_unknown_identifier_noop (fun s => s) (State.mk [] [] [] [] [] ["/x/a"])
     "/x/a.mp3" (by decide)⟩

/-! ## Claim C2 -/

/-- C2: deleting a tracked file removes its record from the registry;
when the identifier sits in the expected-removal list the deletion is
consumed silently (no event at all is emitted and exactly one marker is
removed from the list, so a single marker disappears entirely), and when
it does not, exactly one TRACK_REMOVED event is emitted and the
expected-removal list is untouched. -/
theorem remove_tracked_behaviour (md5 : String → String) (st : State) (path : String)
    (m : MediaFile) (i : String) (hi : i = file_id md5 path)
    (hm : st.mediafiles.lookup i = some m) :
    ((remove md5 st path).mediafiles.lookup i = none)
    ∧ (i ∈ st.expect_removed →
        (remove md5 st path).events = st.events
        ∧ (remove md5 st path).expect_removed = st.expect_removed.erase i
        ∧ (remove md5 st path).expect_removed.count i + 1 = st.expect_removed.count i
        ∧ (st.expect_removed.count i ≤ 1 → i ∉ (remove md5 st path).expect_removed))
    ∧ (i ∉ st.expect_removed →
        (remove md5 st path).events = st.events ++ [⟨"TRACK_REMOVED", [("id", i)]⟩]
        ∧ (remove md5 st path).expect_removed = st.expect_removed) := by
  subst hi
  by_cases hmem : file_id md5 path ∈ st.expect_removed
  · have hrem : remove md5 st path =
        { st with
          artwork := st.artwork.filter
            (fun kv => !((m.artwork.map (fun a => a.key)).contains kv.1)),
          mediafiles := st.mediafiles.filter (fun kv => kv.1 != file_id md5 path),
          expect_removed := st.expect_removed.erase (file_id md5 path) } := by
      simp only [remove, hm]
      simp [hmem]
    refine ⟨?_, fun _ => ⟨?_, ?_, ?_, ?_⟩, fun hno => absurd hmem hno⟩
    · rw [hrem]
      exact lookup_filter_ne st.mediafiles (file_id md5 path)
    · rw [hrem]
    · rw [hrem]
    · rw [hrem, List.count_erase_self]
      have := List.count_pos_iff.2 hmem
      omega
    · intro h1
      rw [hrem]
      have hz : (st.expect_removed.erase (file_id md5 path)).count (file_id md5 path) = 0 := by
        rw [List.count_erase_self]
        omega
      exact List.count_eq_zero.mp hz
  · have hrem : remove md5 st path =
        { st with
          artwork := st.artwork.filter
            (fun kv => !((m.artwork.map (fun a => a.key)).contains kv.1)),
          mediafiles := st.mediafiles.filter (fun kv => kv.1 != file_id md5 path),
          events := st.events ++
            [⟨"TRACK_REMOVED", [("id", file_id md5 path)]⟩] } := by
      simp only [remove, hm]
      simp [hmem, send_event, EventType.name]
    refine ⟨?_, fun hyes => absurd hyes hmem, fun _ => ⟨?_, ?_⟩⟩
    · rw [hrem]
      exact lookup_filter_ne st.mediafiles (file_id md5 path)
    · rw [hrem]
    · rw [hrem]

/-- Witness for C2: a tracked file whose identifier is marked as
expected-removed is deleted silently and the marker is consumed. -/
theorem remove_tracked_behaviour_witness :
    (remove (fun s => s)
        (State.mk [] [] [("/x/a", MediaFile.mk [] "/x/a.mp3" [])] [] [] ["/x/a"])
        "/x/a.mp3").mediafiles.lookup "/x/a" = none
    ∧ (remove (fun s => s)
        (State.mk [] [] [("/x/a", MediaFile.mk [] "/x/a.mp3" [])] [] [] ["/x/a"])
        "/x/a.mp3").events = []
    ∧ (remove (fun s => s)
        (State.mk [] [] [("/x/a", MediaFile.mk [] "/x/a.mp3" [])] [] [] ["/x/a"])
        "/x/a.mp3").expect_removed = []
    ∧ "/x/a" ∉ (remove (fun s => s)
        (State.mk [] [] [("/x/a", MediaFile.mk [] "/x/a.mp3" [])] [] [] ["/x/a"])
        "/x/a.mp3").expect_removed := by
  have h := remove_tracked_behaviour (fun s => s)
    (State.mk [] [] [("/x/a", MediaFile.mk [] "/x/a.mp3" [])] [] [] ["/x/a"])
    "/x/a.mp3" (MediaFile.mk [] "/x/a.mp3" []) "/x/a" (by decide) (by decide)
  have hb := h.2.1 (by decide)
  exact ⟨h.1, hb.1, hb.2.1, hb.2.2.2 (by decide)⟩

/-! ## Claim C3 -/

theorem foldl_append_events {α : Type} (f : α → Event) (st : State) (l : List α) :
    l.foldl (fun s x => { s with events := s.events ++ [f x] }) st
      = { st with events := st.events ++ l.map f } := by
  induction l generalizing st with
  | nil => simp
  | cons a t ih =>
    rw [List.foldl_cons, ih]
    simp

theorem send_details_eq (st : State) (i : String) (track : List (String × String)) :
    send_details st i track =
      { st with events := st.events ++ [⟨"TRACK_DETAILS", ("id", i) :: track⟩] } := rfl

theorem send_processing_eq (st : State) (i : String) (p : TrackProcesses) :
    send_processing st i p =
      { st with events := st.events ++
        [⟨"TRACK_PROCESSING", [("id", i), ("process", p.name)]⟩] } := rfl

/-- C3 (amended): the state replay performed for a joining session does
not bypass the event queue.  `report_state` pushes one TRACK_DETAILS
event for every current track record and then one TRACK_PROCESSING event
for every current processing entry onto the shared event queue — the
same queue the batching dispatcher later drains and broadcasts to every
connected session — and sends nothing to the session directly (the state
is otherwise unchanged, and the session argument is never consulted). -/
theorem report_state_enqueues_replay (serialize : MediaFile → List (String × String))
    (st : State) (ws : String) :
    report_state serialize st ws =
      { st with events :=
          st.events ++
          (st.mediafiles.map (fun kv => ⟨"TRACK_DETAILS", ("id", kv.1) :: serialize kv.2⟩)) ++
          (st.processing.map
            (fun ip => ⟨"TRACK_PROCESSING", [("id", ip.1), ("process", ip.2.name)]⟩)) } := by
  unfold report_state
  simp only [send_details_eq, send_processing_eq]
  rw [foldl_append_events (fun kv => ⟨"TRACK_DETAILS", ("id", kv.1) :: serialize kv.2⟩) st
      st.mediafiles]
  rw [foldl_append_events
      (fun ip => ⟨"TRACK_PROCESSING", [("id", ip.1), ("process", ip.2.name)]⟩) _ st.processing]

/-- Counterexample to C3 as stated: at a concrete state with one track
record, the replay for a joining session mutates the shared event queue
(the claimed direct send bypassing the queue would leave it untouched);
the replayed TRACK_DETAILS message is enqueued for batched dispatch. -/
theorem report_state_counterexample :
    report_state (fun _ => []) (State.mk [] ["other"]
        [("i", MediaFile.mk [] "p" [])] [] [] []) "ws"
      ≠ State.mk [] ["other"] [("i", MediaFile.mk [] "p" [])] [] [] []
    ∧ (report_state (fun _ => []) (State.mk [] ["other"]
        [("i", MediaFile.mk [] "p" [])] [] [] []) "ws").events
      = [⟨"TRACK_DETAILS", [("id", "i")]⟩] := by
  constructor
  · decide
  · decide

/-! ## Claim C6 -/

/-- C6 (amended): the value each attribute of the record holds after the
edit application of `save_track`: an eligible edit (its name is an
attribute already on the record and its value non-empty) is applied, the
last occurrence winning, and every attribute not covered by an eligible
edit is reset to the empty value by the preceding `media.clear()` — not
preserved; names that are not attributes of the record stay absent. -/
theorem save_track_edits_characterization (media : MediaFile)
    (track : List (String × String)) (k : String) :
    ((save_track_edits media track).attrs.lookup k) =
      match (eligible_edits media track).reverse.lookup k with
      | some v => some v
      | none => (media.attrs.lookup k).map (fun _ => "") := by
  unfold save_track_edits
  rw [lookup_foldl_setAttr]
  cases h : (eligible_edits media track).reverse.lookup k <;>
    simp [h, MediaFile.clear, lookup_map_blank]

/-- Counterexample to C6 as stated: an attribute (`artist`, previously
`"A"`) not covered by any eligible edit does not keep its previous
value; it is cleared to the empty string. -/
theorem save_track_edits_counterexample :
    ((save_track_edits (MediaFile.mk [("title", "T"), ("artist", "A")] "/x/a.mp3" [])
        [("title", "New")]).attrs.lookup "artist") = some ""
    ∧ (some "" : Option String) ≠ some "A" := by
  constructor
  · decide
  · decide

/-! ## Claim C5 -/

theorem ungroup_cons (g : GroupedEvent) (gs : List GroupedEvent) :
    ungroup (g :: gs) = g.items.map (fun it => ⟨g.type, it⟩) ++ ungroup gs := rfl

theorem ungroup_group_events_aux (l : List Event) :
    ungroup (group_events_aux l) = l := by
  induction l with
  | nil => rfl
  | cons e rest ih =>
    simp only [group_events_aux]
    cases hg : group_events_aux rest with
    | nil =>
      rw [hg] at ih
      have hrest : rest = [] := by simpa [ungroup] using ih.symm
      subst hrest
      rfl
    | cons g gs =>
      rw [hg] at ih
      by_cases ht : e.type = g.type
      · simp only [ht, if_true]
        rw [ungroup_cons]
        rw [ungroup_cons] at ih
        simp only [List.map_cons, List.cons_append]
        rw [ih]
        congr 1
        rw [← ht]
      · simp only [ht, if_false]
        rw [ungroup_cons]
        simp only [List.map_cons, List.map_nil, List.cons_append, List.nil_append]
        rw [ih]

theorem sort_insert_perm (e : Event) (l : List Event) :
    (sort_insert e l).Perm (e :: l) := by
  induction l with
  | nil => exact List.Perm.refl _
  | cons b t ih =>
    simp only [sort_insert]
    by_cases h : str_le e.type b.type = true
    · simp [h]
    · simp only [h, if_false]
      exact (ih.cons b).trans (List.Perm.swap e b t)

theorem sort_events_perm (l : List Event) : (sort_events l).Perm l := by
  induction l with
  | nil => exact List.Perm.refl _
  | cons e t ih =>
    exact (sort_insert_perm e (sort_events t)).trans (ih.cons e)

theorem group_events_drain_perm (events : List Event) :
    (ungroup (group_events events)).Perm events := by
  rw [group_events, ungroup_group_events_aux]
  exact sort_events_perm events

/-- C5: one dispatcher wake-up: an empty queue is skipped entirely
(nothing drained, nothing sent); a non-empty queue is fully drained;
with no connected client the drained batch is discarded without sending
or re-queueing; otherwise the drained events are grouped by event kind —
the flattened groups are a permutation of the drained batch, so nothing
is lost, duplicated, or mislabelled — and every group is sent to every
connected client. -/
theorem dispatcher_iter_spec (st : State) :
    (st.events = [] → dispatcher_iter st = (st, []))
    ∧ (st.events ≠ [] →
        (dispatcher_iter st).1 = { st with events := [] }
        ∧ (st.connections = [] → (dispatcher_iter st).2 = [])
        ∧ (st.connections ≠ [] →
            (dispatcher_iter st).2 =
              (group_events st.events).flatMap
                (fun g => st.connections.map (fun ws => (ws, g)))
            ∧ (ungroup (group_events st.events)).Perm st.events
            ∧ (∀ g ∈ group_events st.events, ∀ ws ∈ st.connections,
                (ws, g) ∈ (dispatcher_iter st).2))) := by
  by_cases he : st.events = []
  · refine ⟨fun _ => ?_, fun hne => absurd he hne⟩
    simp [dispatcher_iter, he]
  · refine ⟨fun h => absurd h he, fun _ => ?_⟩
    by_cases hc : st.connections = []
    · refine ⟨?_, fun _ => ?_, fun hcc => absurd hc hcc⟩ <;>
        simp [dispatcher_iter, he, hc]
    · refine ⟨?_, fun h => absurd h hc,
        fun _ => ⟨?_, group_events_drain_perm st.events, ?_⟩⟩
      · simp [dispatcher_iter, he, hc]
      · simp [dispatcher_iter, he, hc]
      · intro g hg ws hws
        simp only [dispatcher_iter, he, if_false, hc, List.mem_flatMap]
        exact ⟨g, hg, List.mem_map_of_mem _ hws⟩

/-- Witness for C5 at a concrete two-event, two-client state: the queue
is drained and each of the two kind groups goes to both clients. -/
theorem dispatcher_iter_spec_witness :
    (dispatcher_iter (State.mk [⟨"B", [("id", "1")]⟩, ⟨"A", [("id", "2")]⟩]
        ["w1", "w2"] [] [] [] [])).1 =
      State.mk [] ["w1", "w2"] [] [] [] []
    ∧ (dispatcher_iter (State.mk [⟨"B", [("id", "1")]⟩, ⟨"A", [("id", "2")]⟩]
        ["w1", "w2"] [] [] [] [])).2 =
      [("w1", ⟨"A", [[("id", "2")]]⟩), ("w2", ⟨"A", [[("id", "2")]]⟩),
       ("w1", ⟨"B", [[("id", "1")]]⟩), ("w2", ⟨"B", [[("id", "1")]]⟩)] := by
  have h := (dispatcher_iter_spec (State.mk
    [⟨"B", [("id", "1")]⟩, ⟨"A", [("id", "2")]⟩] ["w1", "w2"] [] [] [] [])).2
    (by decide)
  exact ⟨h.1.trans (by decide), ((h.2.2 (by decide)).1).trans (by decide)⟩

/-! ## Claim C7 -/

theorem key_setAttr (m : MediaFile) (v : String) : (m.setAttr "key" v).key = v := by
  simp [MediaFile.key, MediaFile.setAttr, lookup_assocSet_self]

theorem erase_append_self_perm (i : String) (p : TrackProcesses)
    (l : List (String × TrackProcesses)) :
    ((l ++ [(i, p)]).erase (i, p)).Perm l := by
  induction l with
  | nil => simp
  | cons b t ih =>
    by_cases hb : b = (i, p)
    · subst hb
      rw [List.cons_append, List.erase_cons_head]
      exact List.perm_append_singleton _ t
    · rw [List.cons_append, List.erase_cons_tail]
      · exact ih.cons b
      · simp [hb]

theorem compute_key_ok (estimate : String → String) (st : State) (i : String)
    (media : MediaFile) :
    compute_key estimate st i media =
      .ok ({ st with
          processing := (st.processing ++ [(i, TrackProcesses.KEY_COMPUTING)]).erase
            (i, TrackProcesses.KEY_COMPUTING),
          events := st.events ++
            [⟨"TRACK_PROCESSING", [("id", i), ("process", "KEY_COMPUTING")]⟩,
             ⟨"TRACK_UPDATE", [("id", i), ("completed_process", "KEY_COMPUTING"),
               ("key", zfill 3 (estimate media.file_path))]⟩] },
        media.setAttr "key" (zfill 3 (estimate media.file_path)),
        [.mediaSave (media.setAttr "key" (zfill 3 (estimate media.file_path)))]) := by
  have hmem : (i, TrackProcesses.KEY_COMPUTING) ∈
      (st.processing ++ [(i, TrackProcesses.KEY_COMPUTING)]) := by
    simp
  simp only [compute_key, add_processing, send_processing, send_event, done_processing,
    EventType.name, TrackProcesses.name, hmem, if_true]
  simp

/-- C7 (amended): during add processing of a valid-format file, key
recomputation is triggered exactly when the stored musical key is
missing or, after removing zero characters from BOTH ends (Python
`strip("0")`), is not a recognized Camelot code; when triggered the
stored key is first cleared and the recompute stage is entered on the
cleared media object; the stage always completes, stores the estimated
key zero-padded to 3 characters on the media object, emits the
TRACK_PROCESSING entry event and then the TRACK_UPDATE completion event
carrying `completed_process = KEY_COMPUTING` and the padded key, leaves
the processing list as it was (up to permutation), and persists the
media tags. -/
theorem process_key_check_spec (estimate : String → String) (st : State)
    (i : String) (media : MediaFile) :
    (key_invalid media = true ↔
      (media.key = "" ∨ strip0 media.key ∉ camelotValues))
    ∧ (key_invalid media = true →
        process_key_check estimate st i media =
          compute_key estimate st i (media.setAttr "key" ""))
    ∧ (key_invalid media = false →
        process_key_check estimate st i media = .ok (st, media, []))
    ∧ (∀ st' media' effs,
        compute_key estimate st i media = .ok (st', media', effs) →
        media'.key = zfill 3 (estimate media.file_path)
        ∧ effs = [.mediaSave media']
        ∧ st'.events = st.events ++
            [⟨"TRACK_PROCESSING", [("id", i), ("process", "KEY_COMPUTING")]⟩,
             ⟨"TRACK_UPDATE", [("id", i), ("completed_process", "KEY_COMPUTING"),
               ("key", zfill 3 (estimate media.file_path))]⟩]
        ∧ st'.processing.Perm st.processing) := by
  refine ⟨?_, ?_, ?_, ?_⟩
  · simp [key_invalid]
  · intro h
    simp [process_key_check, h]
  · intro h
    simp [process_key_check, h]
  · intro st' media' effs h
    rw [compute_key_ok] at h
    simp only [Except.ok.injEq, Prod.mk.injEq] at h
    obtain ⟨h1, h2, h3⟩ := h
    subst h1
    subst h2
    subst h3
    refine ⟨key_setAttr media _, rfl, rfl, ?_⟩
    exact erase_append_self_perm i TrackProcesses.KEY_COMPUTING st.processing

/-- Witness for C7: a media file with an empty stored key triggers the
recompute; on an estimator returning `1A` the padded key `01A` is
stored, announced, and persisted. -/
theorem process_key_check_spec_witness :
    key_invalid (MediaFile.mk [("key", "")] "/x/a.mp3" []) = true
    ∧ process_key_check (fun _ => "1A") (State.mk [] [] [] [] [] []) "t"
        (MediaFile.mk [("key", "")] "/x/a.mp3" []) =
      compute_key (fun _ => "1A") (State.mk [] [] [] [] [] []) "t"
        ((MediaFile.mk [("key", "")] "/x/a.mp3" []).setAttr "key" "")
    ∧ compute_key (fun _ => "1A") (State.mk [] [] [] [] [] []) "t"
        ((MediaFile.mk [("key", "")] "/x/a.mp3" []).setAttr "key" "") =
      .ok (State.mk
        [⟨"TRACK_PROCESSING", [("id", "t"), ("process", "KEY_COMPUTING")]⟩,
         ⟨"TRACK_UPDATE", [("id", "t"), ("completed_process", "KEY_COMPUTING"),
           ("key", "01A")]⟩] [] [] [] [] [],
        MediaFile.mk [("key", "01A")] "/x/a.mp3" [],
        [.mediaSave (MediaFile.mk [("key", "01A")] "/x/a.mp3" [])])
    ∧ (MediaFile.mk [("key", "01A")] "/x/a.mp3" []).key =
        zfill 3 ((fun _ : String => "1A") "/x/a.mp3") := by
  have h := process_key_check_spec (fun _ => "1A") (State.mk [] [] [] [] [] []) "t"
    (MediaFile.mk [("key", "")] "/x/a.mp3" [])
  exact ⟨by decide, h.2.1 (by decide), rfl, by decide⟩

/-- Counterexample to C7 as stated: the stored key `1A0` is not a
recognized Camelot code even after removing leading-zero padding, so the
claim requires recomputation to be triggered, but the code strips zeros
from both ends, obtains `1A`, finds it valid, and does not recompute:
the key-validation section is a no-op on this media file. -/
theorem process_key_check_counterexample :
    claim_key_invalid (MediaFile.mk [("key", "1A0")] "/x/a.mp3" []) = true
    ∧ key_invalid (MediaFile.mk [("key", "1A0")] "/x/a.mp3" []) = false
    ∧ process_key_check (fun _ => "1A") (State.mk [] [] [] [] [] []) "t"
        (MediaFile.mk [("key", "1A0")] "/x/a.mp3" []) =
      .ok (State.mk [] [] [] [] [] [], MediaFile.mk [("key", "1A0")] "/x/a.mp3" [], []) := by
  refine ⟨by decide, by decide, rfl⟩

/-! ## Claim C8 -/

/-- Recognizer for symbolic-link effects, used to state that a save with
link roots never performs one. -/
def isSymlinkEffect : Effect → Bool
  | .symlinkFile _ _ => true
  | _ => false

/-- C8 (code bug): a save whose options carry a non-empty list of link
roots does not create the symbolic links and does not emit TRACK_SAVED:
the link loop joins the root with the computed relative path and creates
the directory, but the `os.symlink` call then reads the undefined name
`new_path` (the computed location was bound to `path`), so the first
iteration raises `NameError` and the save aborts with no symlink effect
and no queued event. -/
theorem save_track_link_paths_name_error :
    (save_track (fun a => a) (fun _ => "rel/a.mp3")
        (State.mk [] [] [("t", MediaFile.mk [("artist", "A")] "/imp/a.mp3" [])] [] [] [])
        [("id", "t"), ("artwork", "x"), ("artist", "B")]
        (SaveOptions.mk none ["/links"])).error =
      some "NameError: name new_path is not defined"
    ∧ (save_track (fun a => a) (fun _ => "rel/a.mp3")
        (State.mk [] [] [("t", MediaFile.mk [("artist", "A")] "/imp/a.mp3" [])] [] [] [])
        [("id", "t"), ("artwork", "x"), ("artist", "B")]
        (SaveOptions.mk none ["/links"])).effects.filter isSymlinkEffect = []
    ∧ (save_track (fun a => a) (fun _ => "rel/a.mp3")
        (State.mk [] [] [("t", MediaFile.mk [("artist", "A")] "/imp/a.mp3" [])] [] [] [])
        [("id", "t"), ("artwork", "x"), ("artist", "B")]
        (SaveOptions.mk none ["/links"])).state.events = [] := by
  refine ⟨by decide, by decide, by decide⟩

/-! ## Claim C4 -/

theorem dropWhile_head_not {α : Type} (q : α → Bool) (l : List α) (a : α) (t : List α)
    (h : l.dropWhile q = a :: t) : q a = false := by
  induction l with
  | nil => simp at h
  | cons b r ih =>
    by_cases hb : q b = true
    · rw [List.dropWhile_cons, if_pos hb] at h
      exact ih h
    · rw [List.dropWhile_cons, if_neg hb] at h
      obtain ⟨h1, h2⟩ := List.cons.injEq b r a t ▸ h
      subst h1
      simpa using hb

theorem splitextChars_dropWhile_nil (p : List Char)
    (hd : (p.reverse.takeWhile (fun c => c != '/')).dropWhile (fun c => c != '.') = []) :
    splitextChars p = (p, []) := by
  unfold splitextChars
  rw [hd]

theorem splitextChars_dropWhile_cons (p : List Char) (c : Char) (before : List Char)
    (hd : (p.reverse.takeWhile (fun c => c != '/')).dropWhile (fun c => c != '.')
      = c :: before) :
    splitextChars p =
      if before.any (fun c => c != '.') then
        ((p.reverse.dropWhile (fun c => c != '/')).reverse ++ before.reverse,
         '.' :: ((p.reverse.takeWhile (fun c => c != '/')).takeWhile
           (fun c => c != '.')).reverse)
      else (p, []) := by
  unfold splitextChars
  rw [hd]

/-- Structure of a path that `splitextChars` splits into a non-empty
extension: the path decomposes as a directory part (empty or ending in a
separator), the stem of the basename, and the extension; the stem part
before the dot holds no separator and at least one character that is not
a dot. -/
theorem splitextChars_inv (p sd e : List Char) (he : e ≠ [])
    (h : splitextChars p = (sd, e)) :
    ∃ (dir before : List Char),
      sd = dir ++ before.reverse
      ∧ p = (dir ++ before.reverse) ++ e
      ∧ dir.reverse.takeWhile (fun c => c != '/') = []
      ∧ (∀ c ∈ before, (c != '/') = true)
      ∧ before.any (fun c => c != '.') = true := by
  cases hd : (p.reverse.takeWhile (fun c => c != '/')).dropWhile (fun c => c != '.') with
  | nil =>
    rw [splitextChars_dropWhile_nil p hd] at h
    exact absurd (congrArg Prod.snd h).symm (by simpa using he)
  | cons c before =>
    rw [splitextChars_dropWhile_cons p c before hd] at h
    by_cases hb : before.any (fun c => c != '.') = true
    · rw [if_pos hb] at h
      have h1 : (p.reverse.dropWhile (fun c => c != '/')).reverse ++ before.reverse = sd :=
        congrArg Prod.fst h
      have h2 : '.' :: ((p.reverse.takeWhile (fun c => c != '/')).takeWhile
          (fun c => c != '.')).reverse = e := congrArg Prod.snd h
      have hc : c = '.' := by
        have := dropWhile_head_not (fun c => c != '.') _ c before hd
        simpa using this
      have hT : (p.reverse.takeWhile (fun c => c != '/')) =
          ((p.reverse.takeWhile (fun c => c != '/')).takeWhile (fun c => c != '.'))
            ++ (c :: before) := by
        conv_lhs => rw [← List.takeWhile_append_dropWhile
          (p := fun c => c != '.') (l := p.reverse.takeWhile (fun c => c != '/'))]
        rw [hd]
      have hP : p.reverse =
          (((p.reverse.takeWhile (fun c => c != '/')).takeWhile (fun c => c != '.'))
            ++ (c :: before)) ++ p.reverse.dropWhile (fun c => c != '/') := by
        conv_lhs => rw [← List.takeWhile_append_dropWhile
          (p := fun c => c != '/') (l := p.reverse)]
        rw [← hT]
      refine ⟨(p.reverse.dropWhile (fun c => c != '/')).reverse, before, h1.symm, ?_, ?_, ?_, hb⟩
      · have := congrArg List.reverse hP
        rw [List.reverse_reverse] at this
        rw [this]
        subst hc
        rw [← h2]
        simp only [List.reverse_append, List.reverse_cons, List.reverse_reverse,
          List.append_assoc, List.cons_append, List.nil_append, List.singleton_append]
        have hP2 : (List.takeWhile (fun c => c != '.')
              (List.takeWhile (fun c => c != '/') p.reverse)) ++
            '.' :: (before ++ List.dropWhile (fun c => c != '/') p.reverse) = p.reverse := by
          conv_rhs => rw [hP]
          simp [List.append_assoc]
        rw [hP2]
      · rw [List.reverse_reverse]
        exact takeWhile_dropWhile_eq_nil _ _
      · intro x hx
        refine mem_takeWhile_sat (fun c => c != '/') p.reverse x ?_
        rw [hT]
        exact List.mem_append.mpr (Or.inr (List.mem_cons_of_mem c hx))
    · rw [if_neg hb] at h
      exact absurd (congrArg Prod.snd h).symm (by simpa using he)

/-- Computation of `splitextChars` on a path assembled from a directory
part, a stem, and a dot-led extension free of separators and dots. -/
theorem splitextChars_build (dir before extRev : List Char)
    (hdir : dir.reverse.takeWhile (fun c => c != '/') = [])
    (hbefore : ∀ c ∈ before, (c != '/') = true)
    (hext : ∀ c ∈ extRev, (c != '/') = true ∧ (c != '.') = true)
    (hany : before.any (fun c => c != '.') = true) :
    splitextChars ((dir ++ before.reverse) ++ '.' :: extRev.reverse) =
      (dir ++ before.reverse, '.' :: extRev.reverse) := by
  have hrev : ((dir ++ before.reverse) ++ '.' :: extRev.reverse).reverse
      = (extRev ++ '.' :: before) ++ dir.reverse := by
    simp [List.reverse_append, List.append_assoc]
  have hallA : ∀ c ∈ extRev ++ '.' :: before, (c != '/') = true := by
    intro c hc
    rcases List.mem_append.mp hc with hc | hc
    · exact (hext c hc).1
    · rcases List.mem_cons.mp hc with hc | hc
      · subst hc
        decide
      · exact hbefore c hc
  have htake : ((dir ++ before.reverse) ++ '.' :: extRev.reverse).reverse.takeWhile
      (fun c => c != '/') = extRev ++ '.' :: before := by
    rw [hrev, takeWhile_append_all _ _ _ hallA, hdir, List.append_nil]
  have hdrop : ((dir ++ before.reverse) ++ '.' :: extRev.reverse).reverse.dropWhile
      (fun c => c != '/') = dir.reverse := by
    rw [hrev, dropWhile_append_all _ _ _ hallA,
        dropWhile_eq_self_of_takeWhile_eq_nil _ _ hdir]
  have hdropdot : (extRev ++ '.' :: before).dropWhile (fun c => c != '.')
      = '.' :: before := by
    rw [dropWhile_append_all _ _ _ (fun c hc => (hext c hc).2)]
    simp
  have htakedot : (extRev ++ '.' :: before).takeWhile (fun c => c != '.') = extRev := by
    rw [takeWhile_append_all _ _ _ (fun c hc => (hext c hc).2)]
    simp
  have hdrop2 : (extRev ++ '.' :: (before ++ dir.reverse)).dropWhile
      (fun c => c != '/') = dir.reverse := by
    have h1 : extRev ++ '.' :: (before ++ dir.reverse) =
        (extRev ++ '.' :: before) ++ dir.reverse := by
      simp [List.append_assoc]
    rw [h1, dropWhile_append_all _ _ _ hallA,
        dropWhile_eq_self_of_takeWhile_eq_nil _ _ hdir]
  unfold splitextChars
  rw [htake, hdropdot, htakedot]
  simp [hany, hdrop, hdrop2]

/-- C4: the track identifier is deterministic in the path with its
extension stripped: any two paths with equal extension-stripped roots
receive the same identifier, and — as `process_add` relies on — a path
whose extension splits off as `.aiff`, rewritten in place to `.aif`
(drop the last five characters, append `.aif`), keeps the identifier of
the original path. -/
theorem file_id_path_minus_extension :
    (∀ (md5 : String → String) (p₁ p₂ : String),
        (splitext p₁).1 = (splitext p₂).1 → file_id md5 p₁ = file_id md5 p₂)
    ∧ (∀ (md5 : String → String) (p s : String),
        splitext p = (s, ".aiff") →
        file_id md5 ⟨p.data.take (p.data.length - 5) ++ ".aif".data⟩ = file_id md5 p) := by
  constructor
  · intro md5 p₁ p₂ h
    unfold file_id
    rw [h]
  · intro md5 p s h
    have hchars : splitextChars p.data = (s.data, ".aiff".data) := by
      unfold splitext at h
      have h1 := congrArg Prod.fst h
      have h2 := congrArg Prod.snd h
      exact Prod.ext (congrArg String.data h1) (congrArg String.data h2)
    obtain ⟨dir, before, hsd, hp, hdir, hbefore, hany⟩ :=
      splitextChars_inv p.data s.data ".aiff".data (by decide) hchars
    have hp' : p.data = (dir ++ before.reverse) ++ ".aiff".data := hp
    have htake : p.data.take (p.data.length - 5) = dir ++ before.reverse := by
      rw [hp']
      have hn : ((dir ++ before.reverse) ++ ".aiff".data).length - 5 =
          (dir ++ before.reverse).length := by
        simp [List.length_append]
        omega
      rw [hn]
      exact List.take_left (dir ++ before.reverse) _
    have hbuild := splitextChars_build dir before ['f', 'i', 'a'] hdir hbefore
      (by decide) hany
    have hnew : (⟨p.data.take (p.data.length - 5) ++ ".aif".data⟩ : String).data =
        (dir ++ before.reverse) ++ '.' :: (['f', 'i', 'a'] : List Char).reverse := by
      rw [htake]
      rfl
    unfold file_id splitext
    have hstem1 : (splitextChars (⟨p.data.take (p.data.length - 5) ++ ".aif".data⟩
        : String).data).1 = dir ++ before.reverse := by
      rw [hnew, hbuild]
    have hstem2 : (splitextChars p.data).1 = dir ++ before.reverse := by
      rw [hchars]
      exact hsd
    rw [hstem1, hstem2]

/-- Witness for C4: the general determinism at two concrete paths with a
common root, and the `.aiff` to `.aif` rewrite of a concrete path keeping
its identifier. -/
theorem file_id_path_minus_extension_witness :
    (splitext "/x/b.mp3").1 = (splitext "/x/b.wav").1
    ∧ file_id (fun x => x) "/x/b.mp3" = file_id (fun x => x) "/x/b.wav"
    ∧ splitext "/x/a.aiff" = ("/x/a", ".aiff")
    ∧ file_id (fun x => x)
        ⟨"/x/a.aiff".data.take ("/x/a.aiff".data.length - 5) ++ ".aif".data⟩ =
      file_id (fun x => x) "/x/a.aiff" :=
  ⟨by decide,
   file_id_path_minus_extension.1 (fun x => x) "/x/b.mp3" "/x/b.wav" (by decide),
   by decide,
   file_id_path_minus_extension.2 (fun x => x) "/x/a.aiff" "/x/a" (by decide)⟩
